import Mathlib

/-!
Verification of the VasGoTools command-line scaffolding utility (src/main.go)
against its natural-language specification.

The development shallowly embeds the program:

* the filesystem seen by a `filepath.Walk` is a finite tree (`FsNode`), in
  which an entry may be marked as unreadable (`FsNode.bad`), modelling a
  stat/read failure delivered to the walk callback;
* each external side effect (deleting a file, spawning `go work init`,
  `git init`, `git submodule add`, writing a generated file, ...) is a
  constructor of an effect type, and a run of a command produces the ordered
  trace of the effects it attempted, plus its outcome;
* the success or failure of every external action is an input (an
  environment of booleans / oracles), since the real outcome is decided by
  processes outside the program.

All definitions are translated from src/main.go and keep its names where
possible.
-/

namespace VasGoTools

/-! ### Relative paths

Paths are lists of components, relative to the root handed to a walk.
`relString` renders them the way `filepath.Rel` renders a relative path,
`joinPath` joins a root path with components the way `filepath.Join` does. -/

/-- Render path components relative to a root: `filepath.Rel` yields "." for
the root itself and slash-joined components otherwise. -/
def relString : List String → String
  | [] => "."
  | cs => String.intercalate "/" cs

/-- Join a root path with relative components, in the manner of
`filepath.Join(root, cs...)`. -/
def joinPath (root : String) : List String → String
  | [] => root
  | cs => root ++ "/" ++ String.intercalate "/" cs

/-- The value of `filepath.Rel(root, filepath.Dir(path))` for the entry whose path
relative to the root is `rel` (`[]` is the root itself, whose parent
renders as ".."). -/
def dirRel : List String → String
  | [] => ".."
  | cs => relString cs.dropLast

/-! ### Filesystem trees and the walk of `generateWorkCommand` -/

/-- A filesystem tree as seen by `filepath.Walk`: regular files, directories
with an ordered child list (walk order), and entries whose stat/read fails,
which `filepath.Walk` reports to the callback as a non-nil error. -/
inductive FsNode where
  | file (name : String)
  | dir (name : String) (children : List FsNode)
  | bad (name : String)
deriving Repr

/-- The entry name `info.Name()` of a node. -/
def FsNode.name : FsNode → String
  | .file n => n
  | .dir n _ => n
  | .bad n => n

mutual

/-- No entry of the tree fails to stat/read. -/
def FsNode.noBad : FsNode → Bool
  | .file _ => true
  | .bad _ => false
  | .dir _ cs => noBadList cs

/-- Conjunction of `FsNode.noBad` over a child list. -/
def noBadList : List FsNode → Bool
  | [] => true
  | c :: cs => c.noBad && noBadList cs

end

mutual

/-- The walk callback of `generateWorkCommand` (src/main.go lines 185-200),
run over the subtree `t` whose path relative to the walked root is `rel`,
with accumulator `acc` for the collected `goModFolders`:
a non-nil walk error is returned (aborting the walk); any entry whose name
is exactly "go.mod" appends `filepath.Rel(root, filepath.Dir(path))`;
directories are visited first, then their children in order, and nothing is
pruned. -/
def discoverNode (rel acc : List String) : FsNode → Except String (List String)
  | .bad n => .error n
  | .file n => .ok (if n = "go.mod" then acc ++ [dirRel rel] else acc)
  | .dir n cs =>
      discoverList rel (if n = "go.mod" then acc ++ [dirRel rel] else acc) cs

/-- The function `discoverNode` folded over a child list, aborting at the first error, as
`filepath.Walk` does. -/
def discoverList (rel acc : List String) : List FsNode → Except String (List String)
  | [] => .ok acc
  | c :: cs =>
      match discoverNode (rel ++ [c.name]) acc c with
      | .error e => .error e
      | .ok acc2 => discoverList rel acc2 cs

end

/-- The discovery walk of `generateWorkCommand`: collect, in walk order, the
root-relative parent directory of every entry named "go.mod" in the tree
rooted at the walked folder. -/
def discover (root : FsNode) : Except String (List String) :=
  discoverNode [] [] root

mutual

/-- Specification-side list for the claim as stated: the root-relative
containing directory of every REGULAR FILE named exactly "go.mod", in walk
order. -/
def regularManifestDirs (rel : List String) : FsNode → List String
  | .file n => if n = "go.mod" then [dirRel rel] else []
  | .bad _ => []
  | .dir _ cs => regularManifestDirsList rel cs

/-- Concatenation of `regularManifestDirs` over a child list. -/
def regularManifestDirsList (rel : List String) : List FsNode → List String
  | [] => []
  | c :: cs => regularManifestDirs (rel ++ [c.name]) c ++ regularManifestDirsList rel cs

end

mutual

/-- Specification-side list for the amended claim: the root-relative parent
directory of every entry OF ANY KIND (file or directory) named exactly
"go.mod", in walk order. -/
def manifestEntryDirs (rel : List String) : FsNode → List String
  | .file n => if n = "go.mod" then [dirRel rel] else []
  | .bad _ => []
  | .dir n cs =>
      (if n = "go.mod" then [dirRel rel] else []) ++ manifestEntryDirsList rel cs

/-- Concatenation of `manifestEntryDirs` over a child list. -/
def manifestEntryDirsList (rel : List String) : List FsNode → List String
  | [] => []
  | c :: cs => manifestEntryDirs (rel ++ [c.name]) c ++ manifestEntryDirsList rel cs

end


/-! ### Effects of the work command -/

/-- One external side effect attempted by `generateWorkCommand` or its
helpers, with the arguments the Go code passes. -/
inductive Eff where
  | removeGoWork
  | removeGoWorkSum
  | runGoWorkInit (cwd : String) (args : List String)
  | createVSCodeFiles (d : String)
  | execVSCode (d : String)
  | gitInit (d : String)
  | gitSubmoduleAdd (cwd sub rel : String)
  | gitAddAll (d : String)
  | gitCommitInit (d : String)
  | reportNoModules
deriving Repr, DecidableEq

/-! ### The walk of `addGitSubmodules` (src/main.go lines 317-358)

The callback skips the root itself, and for every DIRECTORY named ".git"
whose parent is not the root it runs
`git submodule add <submodulePath> <relativePath>` with working directory
the root, aborting the walk at the first failing invocation. The oracle
`ok` tells, per relative path, whether that invocation succeeds. The result
is the ordered trace of attempted invocations together with the error
message of `addGitSubmodules`, if any. -/

mutual

/-- The `addGitSubmodules` walk over the subtree `t` at relative path `rel`
below the walked root. -/
def submoduleNode (root : String) (ok : String → Bool) (rel : List String) :
    FsNode → List Eff × Option String
  | .bad n => ([], some n)
  | .file _ => ([], none)
  | .dir n cs =>
      if rel = [] then
        -- the root itself: the callback returns nil, children are walked
        submoduleList root ok rel cs
      else if n = ".git" then
        if rel.dropLast = [] then
          -- relativePath "." : the root checkout is skipped, children walked
          submoduleList root ok rel cs
        else
          let r := relString rel.dropLast
          let e := Eff.gitSubmoduleAdd root (joinPath root rel.dropLast) r
          if ok r then
            let (t, err) := submoduleList root ok rel cs
            (e :: t, err)
          else ([e], some r)
      else submoduleList root ok rel cs

/-- The function `submoduleNode` folded over a child list, aborting at the first
error, as `filepath.Walk` does. -/
def submoduleList (root : String) (ok : String → Bool) (rel : List String) :
    List FsNode → List Eff × Option String
  | [] => ([], none)
  | c :: cs =>
      match submoduleNode root ok (rel ++ [c.name]) c with
      | (t, some e) => (t, some e)
      | (t, none) =>
          let (t2, err) := submoduleList root ok rel cs
          (t ++ t2, err)

end

/-- The function `addGitSubmodules(rootPath)`: walk the tree at the root and register
every nested Git checkout as a submodule. -/
def addGitSubmodules (root : String) (ok : String → Bool) (t : FsNode) :
    List Eff × Option String :=
  submoduleNode root ok [] t

mutual

/-- Specification-side list: the relative paths (as components) of the
nested version-control checkouts of the subtree at `rel`: directories
named ".git" whose containing directory is not the walked root itself, in
walk order. -/
def nestedCheckouts (rel : List String) : FsNode → List (List String)
  | .file _ => []
  | .bad _ => []
  | .dir n cs =>
      (if n = ".git" ∧ rel.dropLast ≠ [] then [rel.dropLast] else [])
        ++ nestedCheckoutsList rel cs

/-- Concatenation of `nestedCheckouts` over a child list. -/
def nestedCheckoutsList (rel : List String) : List FsNode → List (List String)
  | [] => []
  | c :: cs => nestedCheckouts (rel ++ [c.name]) c ++ nestedCheckoutsList rel cs

end

/-- Processing of a list of nested checkouts, one `git submodule add` each
with working directory the root, stopping at the first failure. -/
def processAdds (root : String) (ok : String → Bool) :
    List (List String) → List Eff × Option String
  | [] => ([], none)
  | d :: ds =>
      let r := relString d
      let e := Eff.gitSubmoduleAdd root (joinPath root d) r
      if ok r then
        let (t, err) := processAdds root ok ds
        (e :: t, err)
      else ([e], some r)


/-! ### The `generateWorkCommand` pipeline (src/main.go lines 162-314)

After the discovery walk the command: deletes a pre-existing go.work (and
go.work.sum) at the root; runs `go work init <relpaths...>` when modules
were found, otherwise only reports that none were; then, unless
suppressed, creates and executes the open-vscode files, and initializes a
Git repository (init, submodule registration, add, commit). Each step
prints and returns on failure. The environment supplies the parts decided
outside the program: the tree, which files pre-exist, and whether each
external action succeeds. -/

/-- Which files pre-exist at the root and which external actions succeed. -/
structure WorkEnv where
  tree : FsNode
  goWorkExists : Bool
  goWorkSumExists : Bool
  removeGoWorkOk : Bool
  removeGoWorkSumOk : Bool
  goWorkInitOk : Bool
  createVSCodeOk : Bool
  execVSCodeOk : Bool
  gitInitOk : Bool
  submoduleOk : String → Bool
  gitAddOk : Bool
  gitCommitOk : Bool

/-- How a run of `generateWorkCommand` ends: normally, or at the printed
error of the step that failed (after which the function returns). -/
inductive WorkResult where
  | ok
  | walkError (msg : String)
  | removeGoWorkError
  | removeGoWorkSumError
  | goWorkInitError
  | createVSCodeError
  | execVSCodeError
  | gitInitError
  | submoduleError (msg : String)
  | gitAddError
  | gitCommitError
deriving Repr, DecidableEq

/-- Observable outcome of a run: the ordered trace of attempted effects,
the result, and whether a go.work file is present at the root when the run
ends. -/
structure WorkOut where
  trace : List Eff
  result : WorkResult
  goWorkPresent : Bool
deriving Repr, DecidableEq

/-- Sequencing with early return: when the run so far ended normally,
continue with the next stage (which receives the current go.work
presence); otherwise stop, keeping state and trace as they are. -/
def WorkOut.seq (o : WorkOut) (k : Bool → WorkOut) : WorkOut :=
  match o.result with
  | .ok =>
      let o2 := k o.goWorkPresent
      ⟨o.trace ++ o2.trace, o2.result, o2.goWorkPresent⟩
  | r => ⟨o.trace, r, o.goWorkPresent⟩

/-- Deletion of a pre-existing go.work (lines 207-216): if the file exists
it is removed; a failing removal is a printed error and an early return. -/
def deleteGoWorkStage (env : WorkEnv) : WorkOut :=
  if env.goWorkExists then
    if env.removeGoWorkOk then ⟨[.removeGoWork], .ok, false⟩
    else ⟨[.removeGoWork], .removeGoWorkError, true⟩
  else ⟨[], .ok, false⟩

/-- Deletion of a pre-existing go.work.sum (lines 218-227). -/
def goWorkSumStage (env : WorkEnv) (gw : Bool) : WorkOut :=
  if env.goWorkSumExists then
    if env.removeGoWorkSumOk then ⟨[.removeGoWorkSum], .ok, gw⟩
    else ⟨[.removeGoWorkSum], .removeGoWorkSumError, gw⟩
  else ⟨[], .ok, gw⟩

/-- Descriptor generation (lines 236-254): when modules were found, run
`go work init` with the relative paths as arguments and working directory
the root (a success creates go.work there); otherwise report that no
subfolders with go.mod were found, a normal outcome. -/
def workInitStage (root : String) (env : WorkEnv) (goModFolders : List String)
    (gw : Bool) : WorkOut :=
  if goModFolders ≠ [] then
    let e := Eff.runGoWorkInit root (["work", "init"] ++ goModFolders)
    if env.goWorkInitOk then ⟨[e], .ok, true⟩
    else ⟨[e], .goWorkInitError, gw⟩
  else ⟨[.reportNoModules], .ok, gw⟩

/-- Editor-launch stage (lines 256-273), skipped when `noCode`. -/
def vscodeStage (root : String) (env : WorkEnv) (noCode : Bool) (gw : Bool) : WorkOut :=
  if noCode then ⟨[], .ok, gw⟩
  else if env.createVSCodeOk then
    if env.execVSCodeOk then ⟨[.createVSCodeFiles root, .execVSCode root], .ok, gw⟩
    else ⟨[.createVSCodeFiles root, .execVSCode root], .execVSCodeError, gw⟩
  else ⟨[.createVSCodeFiles root], .createVSCodeError, gw⟩

/-- Version-control stage (lines 275-313), skipped when `noGit`: git init,
submodule registration over the same tree, git add, git commit. -/
def gitStage (root : String) (env : WorkEnv) (noGit : Bool) (gw : Bool) : WorkOut :=
  if noGit then ⟨[], .ok, gw⟩
  else if env.gitInitOk then
    let subs := (addGitSubmodules root env.submoduleOk env.tree).1
    match (addGitSubmodules root env.submoduleOk env.tree).2 with
    | some e => ⟨.gitInit root :: subs, .submoduleError e, gw⟩
    | none =>
        if env.gitAddOk then
          if env.gitCommitOk then
            ⟨.gitInit root :: subs ++ [.gitAddAll root, .gitCommitInit root], .ok, gw⟩
          else
            ⟨.gitInit root :: subs ++ [.gitAddAll root, .gitCommitInit root],
              .gitCommitError, gw⟩
        else ⟨.gitInit root :: subs ++ [.gitAddAll root], .gitAddError, gw⟩
  else ⟨[.gitInit root], .gitInitError, gw⟩

/-- The whole `generateWorkCommand` run after flag handling: the discovery
walk (whose failure aborts everything with nothing attempted), then the
stages in program order. -/
def generateWork (root : String) (env : WorkEnv) (noGit noCode : Bool) : WorkOut :=
  match discover env.tree with
  | .error e => ⟨[], .walkError e, env.goWorkExists⟩
  | .ok goModFolders =>
      WorkOut.seq (deleteGoWorkStage env) fun gw =>
        WorkOut.seq (goWorkSumStage env gw) fun gw2 =>
          WorkOut.seq (workInitStage root env goModFolders gw2) fun gw3 =>
            WorkOut.seq (vscodeStage root env noCode gw3) fun gw4 =>
              gitStage root env noGit gw4


/-! ### Command-line flag handling -/

/-- The constant `modulePrefixMbbVas` (src/main.go line 23). -/
def modulePrefixMbbVas : String := "github.com/muellerbbm-vas/"

/-- The constant `modulePrefixMbbmSlb` (src/main.go line 24). -/
def modulePrefixMbbmSlb : String := "github.com/mbbm-slb/"

/-- Classification of one command-line token, in the manner of
`flag.FlagSet.parseOne` of the Go standard library. -/
inductive FlagTok where
  | positional
  | terminator
  | flagOf (nm : String) (value : Option String)
  | malformed
deriving Repr, DecidableEq

/-- Split a flag body at the first "=": the name, and the inline value when
an "=" is present. -/
def splitEq : List Char → List Char × Option (List Char)
  | [] => ([], none)
  | c :: cs =>
      if c = '=' then ([], some cs)
      else
        let r := splitEq cs
        (c :: r.1, r.2)

/-- Turn a dash-stripped flag body into a token: an empty name is a parse
error, otherwise the name with its optional inline value. -/
def bodyTok (body : List Char) : FlagTok :=
  match splitEq body with
  | ([], _) => .malformed
  | (nm, v) => .flagOf (String.mk nm) (v.map String.mk)

/-- Classify one command-line token: a token not beginning with "-", or
equal to "-", is a positional argument and stops flag parsing; "--" alone
terminates flag parsing; one or two dashes introduce a flag name,
optionally with an inline "=value"; a third dash is a parse error. -/
def classifyTok (s : String) : FlagTok :=
  match s.data with
  | '-' :: '-' :: [] => .terminator
  | '-' :: '-' :: '-' :: _ => .malformed
  | '-' :: '-' :: body => bodyTok body
  | '-' :: [] => .positional
  | '-' :: body => bodyTok body
  | _ => .positional

/-- The behavior of `fs.Parse` for the app/lib flag set (src/main.go lines 362-368), which
defines the string flags "path" (default "") and "module-prefix" (default
"none"): consume flag tokens, taking a missing value from the next
argument, stop at the first positional argument or after "--", and fail on
an unknown flag, a malformed token or a missing value (`flag.ExitOnError`
then exits the process with status 2). Returns the final flag values and
the remaining positional arguments `fs.Args()`. -/
def parseModFlags (p m : String) : List String → Option (String × String × List String)
  | [] => some (p, m, [])
  | a :: rest =>
      match classifyTok a with
      | .positional => some (p, m, a :: rest)
      | .terminator => some (p, m, rest)
      | .malformed => none
      | .flagOf nm v =>
          if nm = "path" then
            match v with
            | some val => parseModFlags val m rest
            | none =>
                match rest with
                | val :: r => parseModFlags val m r
                | [] => none
          else if nm = "module-prefix" then
            match v with
            | some val => parseModFlags p val rest
            | none =>
                match rest with
                | val :: r => parseModFlags p val r
                | [] => none
          else none

/-- The function `parseOptionalFlags` (src/main.go lines 511-524): scan the arguments
for the literal tokens "nogit" and "nocode"; these are the only switches
it recognizes — in particular "nomain" is not among them. -/
def parseOptionalFlags (args : List String) : Bool × Bool :=
  args.foldl
    (fun acc arg =>
      if arg = "nogit" then (true, acc.2)
      else if arg = "nocode" then (acc.1, true)
      else acc)
    (false, false)

/-- Determination of the module name qualifier from the module-prefix flag
value (src/main.go lines 370-381): the default "none" gives the empty
qualifier, "vas" and "slb" are shortcuts for the two constants, and any
other value is used verbatim. -/
def modulePfxOf (s : String) : String :=
  if s ≠ "none" then
    if s = "vas" then modulePrefixMbbVas
    else if s = "slb" then modulePrefixMbbmSlb
    else s
  else ""

/-! ### The `generateModuleCommand` pipeline (src/main.go lines 360-509) -/

/-- One external side effect attempted by `generateModuleCommand`, with the
arguments the Go code passes (`goModInit cwd fullName` is
`go mod init <fullName>` run in `cwd`). -/
inductive MEff where
  | mkdirAll (path : String)
  | goModInit (cwd : String) (fullName : String)
  | createScripts (d : String)
  | createLicense (d : String)
  | writeMainGo (d : String)
  | createVSCodeFiles (d : String)
  | execVSCode (d : String)
  | gitInit (d : String)
  | gitAddAll (d : String)
  | gitCommitInit (d : String)
deriving Repr, DecidableEq

/-- Which external actions of the module command succeed. -/
structure ModEnv where
  mkdirOk : Bool
  goModInitOk : Bool
  scriptsOk : Bool
  licenseOk : Bool
  writeMainOk : Bool
  createVSCodeOk : Bool
  execVSCodeOk : Bool
  gitInitOk : Bool
  gitAddOk : Bool
  gitCommitOk : Bool

/-- How a run of `generateModuleCommand` ends: `flagError` is the process
exit with status 2 of `flag.ExitOnError`, `missingName` the explicit
`os.Exit(1)` when no name argument is given; the others are the printed
error of the step that failed, after which the function returns. -/
inductive ModResult where
  | ok
  | flagError
  | missingName
  | mkdirError
  | goModInitError
  | scriptsError
  | licenseError
  | writeMainError
  | createVSCodeError
  | execVSCodeError
  | gitInitError
  | gitAddError
  | gitCommitError
deriving Repr, DecidableEq

/-- Observable outcome of a module-command run: the ordered trace of
attempted effects and the result. -/
structure ModOut where
  trace : List MEff
  result : ModResult
deriving Repr, DecidableEq

/-- One sequential step: attempt the effect; on success continue with the
rest of the run, on failure stop with the given result (the Go code prints
and returns). -/
def step (e : MEff) (ok : Bool) (fail : ModResult) (k : ModOut) : ModOut :=
  if ok then ⟨e :: k.trace, k.result⟩ else ⟨[e], fail⟩

/-- A step guarded by a suppression switch: when skipped, the run continues
directly. -/
def skippable (skip : Bool) (e : MEff) (ok : Bool) (fail : ModResult) (k : ModOut) : ModOut :=
  if skip then k else step e ok fail k

/-- The whole `generateModuleCommand` run: parse the flag set; determine
the module qualifier; require a name positional argument; read the
optional switches from the arguments after the name (`noMain` is set from
`isLibrary` alone); then, in program order: create the folder, run
`go mod init <qualifier + name>` inside it, create the analyze scripts and
the LICENSE file, write main.go from the embedded template unless
suppressed, create and execute the open-vscode files unless suppressed,
and initialize a Git repository with an initial commit unless suppressed.
`cwd` is the current working directory, used when no --path is given. -/
def generateModule (isLibrary : Bool) (args : List String) (cwd : String)
    (env : ModEnv) : ModOut :=
  match parseModFlags "" "none" args with
  | none => ⟨[], .flagError⟩
  | some (p, m, rest) =>
      let modulePfx := modulePfxOf m
      match rest with
      | [] => ⟨[], .missingName⟩
      | name :: others =>
          let og := parseOptionalFlags others
          let noGit := og.1
          let noCode := og.2
          let noMain := isLibrary
          let folderPath := if p = "" then cwd else p
          let folder := joinPath folderPath [name]
          let fullName := modulePfx ++ name
          step (.mkdirAll folder) env.mkdirOk .mkdirError
            (step (.goModInit folder fullName) env.goModInitOk .goModInitError
              (step (.createScripts folder) env.scriptsOk .scriptsError
                (step (.createLicense folder) env.licenseOk .licenseError
                  (skippable noMain (.writeMainGo folder) env.writeMainOk .writeMainError
                    (skippable noCode (.createVSCodeFiles folder) env.createVSCodeOk
                      .createVSCodeError
                      (skippable noCode (.execVSCode folder) env.execVSCodeOk
                        .execVSCodeError
                        (skippable noGit (.gitInit folder) env.gitInitOk .gitInitError
                          (skippable noGit (.gitAddAll folder) env.gitAddOk .gitAddError
                            (skippable noGit (.gitCommitInit folder) env.gitCommitOk
                              .gitCommitError ⟨[], .ok⟩)))))))))

/-- The exit taken by `generateModuleCommand` before any filesystem effect:
status 2 on a flag parse error (`flag.ExitOnError`), status 1 when the
name positional argument is missing (src/main.go lines 383-388), and none
otherwise. -/
def moduleCommandExit (args : List String) : Option Nat :=
  match parseModFlags "" "none" args with
  | none => some 2
  | some (_, _, []) => some 1
  | some (_, _, _ :: _) => none

/-! ### The subcommand dispatch of `main` (src/main.go lines 53-79) -/

/-- How `main` dispatches: an explicit `os.Exit`, or entry into one of the
commands with the remaining arguments. -/
inductive MainResult where
  | exited (code : Nat)
  | ranWork (args : List String)
  | ranModule (isLibrary : Bool) (args : List String)
deriving Repr, DecidableEq

/-- The subcommand names `main` recognizes. -/
def knownCommands : List String :=
  ["work", "app", "lib", "help", "--help", "-h", "version", "--version", "-v"]

/-- The dispatch of `main` on `os.Args[1:]`: with no subcommand print usage
and exit 1; "work", "app" and "lib" enter their command; help and version
(and their aliases) exit 0; anything else prints usage and exits 1. -/
def mainDispatch (argv : List String) : MainResult :=
  match argv with
  | [] => .exited 1
  | cmd :: rest =>
      if cmd = "work" then .ranWork rest
      else if cmd = "app" then .ranModule false rest
      else if cmd = "lib" then .ranModule true rest
      else if cmd = "help" ∨ cmd = "--help" ∨ cmd = "-h" then .exited 0
      else if cmd = "version" ∨ cmd = "--version" ∨ cmd = "-v" then .exited 0
      else .exited 1

/-! ### Concrete example inputs, used to instantiate the theorems -/

/-- The endorsed workspace layout: two modules, one nested under ext. -/
def exampleTree : FsNode :=
  .dir "ws"
    [.dir "app1" [.file "go.mod", .file "main.go"],
     .dir "ext" [.dir "lib1" [.file "go.mod"]]]

/-- A tree with one entry that cannot be stat/read. -/
def exampleBadTree : FsNode := .dir "ws" [.dir "app1" [.file "go.mod"], .bad "locked"]

/-- A tree with the own ".git" of the root checkout and one nested checkout two
levels down. -/
def exampleSubTree : FsNode :=
  .dir "ws"
    [.dir ".git" [.file "config"],
     .dir "a" [.dir "b" [.dir ".git" [.file "config"]]]]

/-- A tree with two nested checkouts. -/
def exampleTwoSubTree : FsNode :=
  .dir "ws"
    [.dir "a" [.dir ".git" []],
     .dir "c" [.dir "d" [.dir ".git" []]]]

/-- A work-command environment in which everything pre-exists and every
external action succeeds, over `exampleTree`. -/
def allOkWorkEnv : WorkEnv :=
  ⟨exampleTree, true, true, true, true, true, true, true, true, fun _ => true, true, true⟩

/-- Like `allOkWorkEnv`, but `git init` fails. -/
def gitFailWorkEnv : WorkEnv :=
  ⟨exampleTree, true, true, true, true, true, true, true, false, fun _ => true, true, true⟩

/-- Like `allOkWorkEnv`, but over `exampleBadTree`. -/
def badWalkWorkEnv : WorkEnv :=
  ⟨exampleBadTree, true, true, true, true, true, true, true, true, fun _ => true, true, true⟩

/-- Like `allOkWorkEnv`, but over a root with no go.mod anywhere. -/
def emptyTreeWorkEnv : WorkEnv :=
  ⟨.dir "ws" [.file "README.md"], true, true, true, true, true, true, true, true,
    fun _ => true, true, true⟩

/-- A module-command environment in which every external action succeeds. -/
def allOkModEnv : ModEnv := ⟨true, true, true, true, true, true, true, true, true, true⟩

/-! ### Walk lemmas -/

mutual

/-- On an error-free subtree the discovery walk succeeds and appends exactly
the manifest-entry parent directories, in walk order. -/
theorem discoverNode_ok : ∀ (rel acc : List String) (t : FsNode), t.noBad = true →
    discoverNode rel acc t = Except.ok (acc ++ manifestEntryDirs rel t)
  | rel, acc, .file n, _ => by
      by_cases h : n = "go.mod" <;>
        simp [discoverNode, manifestEntryDirs, h]
  | _, _, .bad n, hb => by simp [FsNode.noBad] at hb
  | rel, acc, .dir n cs, hb => by
      have hcs : noBadList cs = true := by
        simpa [FsNode.noBad] using hb
      by_cases h : n = "go.mod" <;>
        simp [discoverNode, manifestEntryDirs, h, discoverList_ok rel _ cs hcs,
          List.append_assoc]

/-- List version of `discoverNode_ok`. -/
theorem discoverList_ok : ∀ (rel acc : List String) (cs : List FsNode),
    noBadList cs = true →
    discoverList rel acc cs = Except.ok (acc ++ manifestEntryDirsList rel cs)
  | _, _, [], _ => by simp [discoverList, manifestEntryDirsList]
  | rel, acc, c :: cs, hb => by
      have hc : c.noBad = true := by
        have := hb; simp [noBadList, Bool.and_eq_true] at this; exact this.1
      have hcs : noBadList cs = true := by
        have := hb; simp [noBadList, Bool.and_eq_true] at this; exact this.2
      simp [discoverList, manifestEntryDirsList, discoverNode_ok _ _ _ hc,
        discoverList_ok rel _ cs hcs, List.append_assoc]

end

mutual

/-- If some entry of the subtree cannot be stat/read, the discovery walk
aborts with an error (and hence returns no partial list). -/
theorem discoverNode_error : ∀ (rel acc : List String) (t : FsNode), t.noBad = false →
    ∃ e, discoverNode rel acc t = Except.error e
  | _, _, .file n, hb => by simp [FsNode.noBad] at hb
  | _, _, .bad n, _ => ⟨n, rfl⟩
  | rel, acc, .dir n cs, hb => by
      have hcs : noBadList cs = false := by
        simpa [FsNode.noBad] using hb
      simpa [discoverNode] using
        discoverList_error rel (if n = "go.mod" then acc ++ [dirRel rel] else acc) cs hcs

/-- List version of `discoverNode_error`. -/
theorem discoverList_error : ∀ (rel acc : List String) (cs : List FsNode),
    noBadList cs = false →
    ∃ e, discoverList rel acc cs = Except.error e
  | _, _, [], hb => by simp [noBadList] at hb
  | rel, acc, c :: cs, hb => by
      rcases hc : c.noBad with hvf | hvt
      · rcases discoverNode_error (rel ++ [c.name]) acc c hc with ⟨e, he⟩
        exact ⟨e, by simp [discoverList, he]⟩
      · have hcs : noBadList cs = false := by
          have := hb; simp [noBadList, hc] at this; exact this
        rcases discoverList_error rel (acc ++ manifestEntryDirs (rel ++ [c.name]) c) cs hcs
          with ⟨e, he⟩
        exact ⟨e, by simp [discoverList, discoverNode_ok _ _ _ hc, he]⟩

end

/-- The function `processAdds` over an appended list is the sequential composition. -/
theorem processAdds_append (root : String) (ok : String → Bool) :
    ∀ l1 l2, processAdds root ok (l1 ++ l2) =
      match processAdds root ok l1 with
      | (t, some e) => (t, some e)
      | (t, none) =>
          let (t2, err) := processAdds root ok l2
          (t ++ t2, err)
  | [], l2 => by
      cases h : processAdds root ok l2 with
      | mk t err => simp [processAdds, h]
  | d :: ds, l2 => by
      by_cases h : ok (relString d)
      · have ih := processAdds_append root ok ds l2
        cases h1 : processAdds root ok ds with
        | mk t1 e1 =>
          cases e1 with
          | none =>
            cases h2 : processAdds root ok l2 with
            | mk t2 e2 => simp_all [processAdds, h]
          | some e => simp_all [processAdds, h]
      · simp [processAdds, h]

mutual

/-- On an error-free subtree, the `addGitSubmodules` walk is exactly the
sequential processing of its nested checkouts in walk order. -/
theorem submoduleNode_eq_processAdds :
    ∀ (root : String) (ok : String → Bool) (rel : List String) (t : FsNode),
      t.noBad = true →
      submoduleNode root ok rel t = processAdds root ok (nestedCheckouts rel t)
  | root, ok, rel, .file n, _ => by simp [submoduleNode, nestedCheckouts, processAdds]
  | root, ok, rel, .bad n, hb => by simp [FsNode.noBad] at hb
  | root, ok, rel, .dir n cs, hb => by
      have hcs : noBadList cs = true := by simpa [FsNode.noBad] using hb
      have ih := submoduleList_eq_processAdds root ok rel cs hcs
      by_cases hroot : rel = []
      · subst hroot
        simp [submoduleNode, nestedCheckouts, ih]
      · by_cases hgit : n = ".git"
        · by_cases hdrop : rel.dropLast = []
          · simp [submoduleNode, nestedCheckouts, hroot, hgit, hdrop, ih]
          · by_cases hok : ok (relString rel.dropLast)
            · simp [submoduleNode, nestedCheckouts, processAdds, hroot, hgit, hdrop,
                hok, ih]
            · simp [submoduleNode, nestedCheckouts, processAdds, hroot, hgit, hdrop, hok]
        · simp [submoduleNode, nestedCheckouts, hroot, hgit, ih]

/-- List version of `submoduleNode_eq_processAdds`. -/
theorem submoduleList_eq_processAdds :
    ∀ (root : String) (ok : String → Bool) (rel : List String) (cs : List FsNode),
      noBadList cs = true →
      submoduleList root ok rel cs = processAdds root ok (nestedCheckoutsList rel cs)
  | root, ok, rel, [], _ => by simp [submoduleList, nestedCheckoutsList, processAdds]
  | root, ok, rel, c :: cs, hb => by
      have hc : c.noBad = true := by
        have := hb; simp [noBadList, Bool.and_eq_true] at this; exact this.1
      have hcs : noBadList cs = true := by
        have := hb; simp [noBadList, Bool.and_eq_true] at this; exact this.2
      have ihc := submoduleNode_eq_processAdds root ok (rel ++ [c.name]) c hc
      have ihcs := submoduleList_eq_processAdds root ok rel cs hcs
      rw [nestedCheckoutsList, processAdds_append]
      cases h1 : processAdds root ok (nestedCheckouts (rel ++ [c.name]) c) with
      | mk t1 e1 =>
        cases e1 with
        | some e => simp [submoduleList, ihc, h1]
        | none =>
          cases h2 : processAdds root ok (nestedCheckoutsList rel cs) with
          | mk t2 e2 => simp [submoduleList, ihc, h1, ihcs, h2]

end

/-- When every registration succeeds, `processAdds` performs them all, in
order, and reports no error. -/
theorem processAdds_all_ok (root : String) (ok : String → Bool) :
    ∀ ds, (∀ d ∈ ds, ok (relString d) = true) →
      processAdds root ok ds =
        (ds.map fun d => Eff.gitSubmoduleAdd root (joinPath root d) (relString d), none)
  | [], _ => by simp [processAdds]
  | d :: ds, h => by
      have hd : ok (relString d) = true := h d (by simp)
      have ih := processAdds_all_ok root ok ds (fun x hx => h x (by simp [hx]))
      simp [processAdds, hd, ih]

mutual

/-- Every effect in the trace of the `addGitSubmodules` walk is a
`git submodule add` invocation. -/
theorem submoduleNode_trace_adds :
    ∀ (root : String) (ok : String → Bool) (rel : List String) (t : FsNode)
      (e : Eff), e ∈ (submoduleNode root ok rel t).1 →
      ∃ c s r, e = Eff.gitSubmoduleAdd c s r
  | root, ok, rel, .file n, e, h => by simp [submoduleNode] at h
  | root, ok, rel, .bad n, e, h => by simp [submoduleNode] at h
  | root, ok, rel, .dir n cs, e, h => by
      by_cases hroot : rel = []
      · exact submoduleList_trace_adds root ok rel cs e (by simpa [submoduleNode, hroot] using h)
      · by_cases hgit : n = ".git"
        · by_cases hdrop : rel.dropLast = []
          · exact submoduleList_trace_adds root ok rel cs e
              (by simpa [submoduleNode, hroot, hgit, hdrop] using h)
          · by_cases hok : ok (relString rel.dropLast)
            · rcases h2 : submoduleList root ok rel cs with ⟨t1, e1⟩
              simp [submoduleNode, hroot, hgit, hdrop, hok, h2] at h
              rcases h with h | h
              · exact ⟨root, joinPath root rel.dropLast, relString rel.dropLast, h⟩
              · exact submoduleList_trace_adds root ok rel cs e (by simp [h2, h])
            · simp [submoduleNode, hroot, hgit, hdrop, hok] at h
              exact ⟨root, joinPath root rel.dropLast, relString rel.dropLast, h⟩
        · exact submoduleList_trace_adds root ok rel cs e
            (by simpa [submoduleNode, hroot, hgit] using h)

/-- List version of `submoduleNode_trace_adds`. -/
theorem submoduleList_trace_adds :
    ∀ (root : String) (ok : String → Bool) (rel : List String) (cs : List FsNode)
      (e : Eff), e ∈ (submoduleList root ok rel cs).1 →
      ∃ c s r, e = Eff.gitSubmoduleAdd c s r
  | root, ok, rel, [], e, h => by simp [submoduleList] at h
  | root, ok, rel, c :: cs, e, h => by
      rcases h1 : submoduleNode root ok (rel ++ [c.name]) c with ⟨t1, e1⟩
      cases e1 with
      | some msg =>
        simp [submoduleList, h1] at h
        exact submoduleNode_trace_adds root ok (rel ++ [c.name]) c e (by simp [h1, h])
      | none =>
        rcases h2 : submoduleList root ok rel cs with ⟨t2, e2⟩
        simp [submoduleList, h1, h2] at h
        rcases h with h | h
        · exact submoduleNode_trace_adds root ok (rel ++ [c.name]) c e (by simp [h1, h])
        · exact submoduleList_trace_adds root ok rel cs e (by simp [h2, h])

end

/-! ### Pipeline lemmas -/

/-- Membership in the trace of a sequenced run comes from one of the two
parts. -/
theorem seq_trace_mem {e : Eff} (o : WorkOut) (k : Bool → WorkOut)
    (h : e ∈ (WorkOut.seq o k).trace) :
    e ∈ o.trace ∨ e ∈ (k o.goWorkPresent).trace := by
  cases hr : o.result <;> simp [WorkOut.seq, hr] at h <;> tauto

/-- No stage before descriptor generation emits a `go work init`. -/
theorem deleteGoWork_no_init (env : WorkEnv) (cwd : String) (args : List String) :
    Eff.runGoWorkInit cwd args ∉ (deleteGoWorkStage env).trace := by
  simp only [deleteGoWorkStage]
  split
  · split <;> simp
  · simp

/-- The go.work.sum stage emits no `go work init`. -/
theorem goWorkSum_no_init (env : WorkEnv) (gw : Bool) (cwd : String) (args : List String) :
    Eff.runGoWorkInit cwd args ∉ (goWorkSumStage env gw).trace := by
  simp only [goWorkSumStage]
  split
  · split <;> simp
  · simp

/-- The editor stage emits no `go work init`. -/
theorem vscode_no_init (root : String) (env : WorkEnv) (c gw : Bool) (cwd : String)
    (args : List String) :
    Eff.runGoWorkInit cwd args ∉ (vscodeStage root env c gw).trace := by
  simp only [vscodeStage]
  split
  · simp
  · split
    · split <;> simp
    · simp

/-- The version-control stage emits no `go work init`. -/
theorem gitStage_no_init (root : String) (env : WorkEnv) (g gw : Bool) (cwd : String)
    (args : List String) :
    Eff.runGoWorkInit cwd args ∉ (gitStage root env g gw).trace := by
  have hsub : Eff.runGoWorkInit cwd args ∉ (addGitSubmodules root env.submoduleOk env.tree).1 := by
    intro hmem
    rcases submoduleNode_trace_adds root env.submoduleOk [] env.tree _ hmem with ⟨a, b, c2, hc⟩
    simp at hc
  simp only [gitStage]
  split
  · simp
  · split
    · cases h : (addGitSubmodules root env.submoduleOk env.tree).2 with
      | some e => simp [h, hsub]
      | none =>
          simp only [h]
          split
          · split <;> simp [hsub]
          · simp [hsub]
    · simp

/-- The editor stage leaves the go.work presence unchanged. -/
theorem vscode_present (root : String) (env : WorkEnv) (c gw : Bool) :
    (vscodeStage root env c gw).goWorkPresent = gw := by
  simp only [vscodeStage]
  split
  · simp
  · split
    · split <;> simp
    · simp

/-- The version-control stage leaves the go.work presence unchanged. -/
theorem gitStage_present (root : String) (env : WorkEnv) (g gw : Bool) :
    (gitStage root env g gw).goWorkPresent = gw := by
  simp only [gitStage]
  split
  · simp
  · split
    · cases h : (addGitSubmodules root env.submoduleOk env.tree).2 with
      | some e => simp [h]
      | none =>
          simp only [h]
          split
          · split <;> simp
          · simp
    · simp

/-- A list that splits at an element also splits at the head of its cons
form, when the element differs from the head. -/
theorem append_cons_eq_cons {α : Type} {pre post l : List α} {a x : α}
    (h : pre ++ a :: post = x :: l) (hne : a ≠ x) :
    ∃ pre2, pre = x :: pre2 ∧ pre2 ++ a :: post = l := by
  cases pre with
  | nil =>
      simp only [List.nil_append, List.cons.injEq] at h
      exact absurd h.1 hne
  | cons y ys =>
      simp only [List.cons_append, List.cons.injEq] at h
      exact ⟨ys, by simp [h.1], h.2⟩

/-- On an error-free tree, `addGitSubmodules` is the sequential processing
of the nested checkouts in walk order. -/
theorem addGitSubmodules_eq (root : String) (ok : String → Bool) (t : FsNode)
    (hb : t.noBad = true) :
    addGitSubmodules root ok t = processAdds root ok (nestedCheckouts [] t) :=
  submoduleNode_eq_processAdds root ok [] t hb

/-- Sequencing preserves a go.work presence that both parts preserve. -/
theorem seq_present (o : WorkOut) (k : Bool → WorkOut) (b : Bool)
    (h1 : o.goWorkPresent = b) (h2 : (k b).goWorkPresent = b) :
    (WorkOut.seq o k).goWorkPresent = b := by
  have hk : k o.goWorkPresent = k b := by rw [h1]
  cases hr : o.result <;> simp [WorkOut.seq, hr, hk, h1, h2]

/-! ### The claims -/

/-- C1, counterexample to the claim as stated: the walk callback tests only
`info.Name() == "go.mod"` and never that the entry is a regular file, so on
a tree whose only "go.mod" entry is a DIRECTORY, discover returns one
reference ("." for its parent, the root) although the tree contains no
regular file named go.mod — refuting "exactly one ModuleReference per
regular file named exactly go.mod". -/
theorem C1_counterexample :
    discover (FsNode.dir "ws" [FsNode.dir "go.mod" []]) = Except.ok ["."] ∧
    regularManifestDirs [] (FsNode.dir "ws" [FsNode.dir "go.mod" []]) = [] ∧
    (["."] : List String) ≠ ([] : List String) :=
  ⟨rfl, rfl, by decide⟩

/-- C1, amended: for every error-free directory tree, discover returns
exactly one ModuleReference per ENTRY (regular file or directory) named
exactly "go.mod" beneath the root, each value being the containing
directory of the entry relative to the root, appended in walk order, with no directory
pruned from the walk. -/
theorem C1_discover_per_manifest_entry (t : FsNode) (hb : t.noBad = true) :
    discover t = Except.ok (manifestEntryDirs [] t) :=
  discoverNode_ok [] [] t hb

/-- Witness for C1 on the endorsed layout: discover finds app1 and
ext/lib1, in walk order. -/
theorem C1_discover_per_manifest_entry_witness :
    discover exampleTree = Except.ok ["app1", "ext/lib1"] := by
  rw [C1_discover_per_manifest_entry exampleTree (by decide)]; rfl

/-- C3: over an error-free tree in which every registration succeeds,
`addGitSubmodules` invokes exactly one `git submodule add` per nested
checkout (directory containing a ".git" metadata directory whose containing
directory is not the root itself), in walk order, with the root-joined path
of the checkout and its root-relative path as arguments and the root as
working directory, and reports no error; the own ".git" of the root is excluded
from `nestedCheckouts` by construction and hence never registered. -/
theorem C3_submodules_registered_exactly (root : String) (ok : String → Bool)
    (t : FsNode) (hb : t.noBad = true)
    (hok : ∀ d ∈ nestedCheckouts [] t, ok (relString d) = true) :
    addGitSubmodules root ok t =
      ((nestedCheckouts [] t).map fun d =>
        Eff.gitSubmoduleAdd root (joinPath root d) (relString d), none) := by
  rw [addGitSubmodules_eq root ok t hb, processAdds_all_ok root ok _ hok]

/-- Witness for C3: a root with its own ".git" and one nested checkout two
levels down registers exactly the nested one. -/
theorem C3_submodules_registered_exactly_witness :
    addGitSubmodules "/ws" (fun _ => true) exampleSubTree =
      ((nestedCheckouts [] exampleSubTree).map fun d =>
        Eff.gitSubmoduleAdd "/ws" (joinPath "/ws" d) (relString d), none) :=
  C3_submodules_registered_exactly "/ws" (fun _ => true) exampleSubTree (by decide)
    (by decide)

/-- C5: if the walk cannot stat or read some entry, discovery fails with
that error and returns no partial sequence, and the whole work-command run
aborts with an empty effect trace: no descriptor deletion and no tool
invocation happen. -/
theorem C5_walk_error_aborts (root : String) (env : WorkEnv) (noGit noCode : Bool)
    (hb : env.tree.noBad = false) :
    ∃ e, discover env.tree = Except.error e ∧
      generateWork root env noGit noCode =
        ⟨[], WorkResult.walkError e, env.goWorkExists⟩ := by
  rcases discoverNode_error [] [] env.tree hb with ⟨e, he⟩
  exact ⟨e, he, by simp [generateWork, discover, he]⟩

/-- Witness for C5: a locked entry aborts the run with nothing attempted. -/
theorem C5_walk_error_aborts_witness :
    ∃ e, discover badWalkWorkEnv.tree = Except.error e ∧
      generateWork "/ws" badWalkWorkEnv false false =
        ⟨[], WorkResult.walkError e, badWalkWorkEnv.goWorkExists⟩ :=
  C5_walk_error_aborts "/ws" badWalkWorkEnv false false (by decide)

/-- C6: over an error-free tree, the first failing `git submodule add`
aborts the walk: the trace is the successful registrations before it plus
the failing attempt, nothing after it is registered, and the error is
returned from `addGitSubmodules`. -/
theorem C6_first_add_failure_aborts (root : String) (ok : String → Bool)
    (t : FsNode) (ds1 ds2 : List (List String)) (d : List String)
    (hb : t.noBad = true)
    (hsplit : nestedCheckouts [] t = ds1 ++ d :: ds2)
    (h1 : ∀ x ∈ ds1, ok (relString x) = true)
    (hd : ok (relString d) = false) :
    addGitSubmodules root ok t =
      ((ds1.map fun x => Eff.gitSubmoduleAdd root (joinPath root x) (relString x))
          ++ [Eff.gitSubmoduleAdd root (joinPath root d) (relString d)],
        some (relString d)) := by
  rw [addGitSubmodules_eq root ok t hb, hsplit, processAdds_append,
    processAdds_all_ok root ok _ h1]
  simp [processAdds, hd]

/-- Witness for C6: with two nested checkouts and the first registration
failing, only the failing attempt is in the trace and the error is
returned. -/
theorem C6_first_add_failure_aborts_witness :
    addGitSubmodules "/ws" (fun s => s != "a") exampleTwoSubTree =
      ((([] : List (List String)).map fun x =>
          Eff.gitSubmoduleAdd "/ws" (joinPath "/ws" x) (relString x))
          ++ [Eff.gitSubmoduleAdd "/ws" (joinPath "/ws" ["a"]) (relString ["a"])],
        some (relString ["a"])) :=
  C6_first_add_failure_aborts "/ws" (fun s => s != "a") exampleTwoSubTree
    [] [["c", "d"]] ["a"] (by decide) (by decide) (by decide) (by decide)

/-- C2: whenever the run reaches an invocation of the external build tool
(`go work init` appears in the trace), given that a go.work file existed at
the root, its deletion strictly precedes that invocation — and if a
go.work.sum side-file existed, its deletion precedes it too. The old
descriptor is removed, never merged into: the only write path is the init
invocation, after both deletions. -/
theorem C2_descriptor_deleted_before_tool (root : String) (env : WorkEnv)
    (noGit noCode : Bool) (cwd : String) (args : List String) (pre post : List Eff)
    (hgw : env.goWorkExists = true)
    (htr : (generateWork root env noGit noCode).trace =
      pre ++ Eff.runGoWorkInit cwd args :: post) :
    Eff.removeGoWork ∈ pre ∧
      (env.goWorkSumExists = true → Eff.removeGoWorkSum ∈ pre) := by
  cases hdisc : discover env.tree with
  | error e =>
      rw [show generateWork root env noGit noCode =
          ⟨[], .walkError e, env.goWorkExists⟩ from by simp [generateWork, hdisc]] at htr
      simp at htr
  | ok folders =>
      have hgen : generateWork root env noGit noCode =
          WorkOut.seq (deleteGoWorkStage env) (fun gw =>
            WorkOut.seq (goWorkSumStage env gw) fun gw2 =>
              WorkOut.seq (workInitStage root env folders gw2) fun gw3 =>
                WorkOut.seq (vscodeStage root env noCode gw3) fun gw4 =>
                  gitStage root env noGit gw4) := by
        simp [generateWork, hdisc]
      rw [hgen] at htr
      by_cases hrm : env.removeGoWorkOk
      · rw [show deleteGoWorkStage env = ⟨[Eff.removeGoWork], .ok, false⟩ from by
          simp [deleteGoWorkStage, hgw, hrm]] at htr
        simp only [WorkOut.seq, List.singleton_append] at htr
        rcases append_cons_eq_cons htr.symm (by simp) with ⟨pre2, hpre, hrest⟩
        refine ⟨by simp [hpre], ?_⟩
        intro hsum
        by_cases hrs : env.removeGoWorkSumOk
        · rw [show goWorkSumStage env false = ⟨[Eff.removeGoWorkSum], .ok, false⟩ from by
            simp [goWorkSumStage, hsum, hrs]] at hrest
          simp only [WorkOut.seq, List.singleton_append] at hrest
          rcases append_cons_eq_cons hrest (by simp) with ⟨pre3, hpre3, _⟩
          simp [hpre, hpre3]
        · rw [show goWorkSumStage env false =
              ⟨[Eff.removeGoWorkSum], .removeGoWorkSumError, false⟩ from by
            simp [goWorkSumStage, hsum, hrs]] at hrest
          simp only [WorkOut.seq] at hrest
          cases pre2 <;> simp_all
      · rw [show deleteGoWorkStage env =
            ⟨[Eff.removeGoWork], .removeGoWorkError, true⟩ from by
          simp [deleteGoWorkStage, hgw, hrm]] at htr
        simp only [WorkOut.seq] at htr
        cases pre <;> simp_all

/-- Witness for C2 on the endorsed layout with everything pre-existing. -/
theorem C2_descriptor_deleted_before_tool_witness :
    Eff.removeGoWork ∈ [Eff.removeGoWork, Eff.removeGoWorkSum] ∧
      Eff.removeGoWorkSum ∈ [Eff.removeGoWork, Eff.removeGoWorkSum] :=
  have h := C2_descriptor_deleted_before_tool "/ws" allOkWorkEnv true true "/ws"
    (["work", "init"] ++ ["app1", "ext/lib1"]) [Eff.removeGoWork, Eff.removeGoWorkSum] []
    (by decide) (by decide)
  ⟨h.1, h.2 (by decide)⟩

/-- C4: when discovery returns an empty reference set (and descriptor
cleanup does not itself fail), the run reports that no modules were found,
never invokes the external build tool, ends with no go.work present (no
descriptor write happened), and — with the editor and VCS stages
suppressed — ends as a normal, non-error outcome. -/
theorem C4_empty_references_skip (root : String) (env : WorkEnv) (noGit noCode : Bool)
    (hdisc : discover env.tree = Except.ok [])
    (h1 : env.goWorkExists = true → env.removeGoWorkOk = true)
    (h2 : env.goWorkSumExists = true → env.removeGoWorkSumOk = true) :
    Eff.reportNoModules ∈ (generateWork root env noGit noCode).trace ∧
    (∀ cwd args, Eff.runGoWorkInit cwd args ∉ (generateWork root env noGit noCode).trace) ∧
    (generateWork root env noGit noCode).goWorkPresent = false ∧
    (generateWork root env true true).result = WorkResult.ok := by
  have hgen : ∀ g c, generateWork root env g c =
      WorkOut.seq (deleteGoWorkStage env) (fun gw =>
        WorkOut.seq (goWorkSumStage env gw) fun gw2 =>
          WorkOut.seq (workInitStage root env [] gw2) fun gw3 =>
            WorkOut.seq (vscodeStage root env c gw3) fun gw4 =>
              gitStage root env g gw4) := by
    intro g c; simp [generateWork, hdisc]
  have hdel : deleteGoWorkStage env =
      ⟨if env.goWorkExists then [Eff.removeGoWork] else [], .ok, false⟩ := by
    by_cases hx : env.goWorkExists
    · simp [deleteGoWorkStage, hx, h1 hx]
    · simp [deleteGoWorkStage, hx]
  have hsumst : ∀ gw, goWorkSumStage env gw =
      ⟨if env.goWorkSumExists then [Eff.removeGoWorkSum] else [], .ok, gw⟩ := by
    intro gw
    by_cases hx : env.goWorkSumExists
    · simp [goWorkSumStage, hx, h2 hx]
    · simp [goWorkSumStage, hx]
  have hinit : ∀ gw, workInitStage root env [] gw = ⟨[Eff.reportNoModules], .ok, gw⟩ := by
    intro gw; simp [workInitStage]
  refine ⟨?_, ?_, ?_, ?_⟩
  · rw [hgen]
    simp only [hdel, hsumst, hinit, WorkOut.seq]
    simp
  · intro cwd args hmem
    rw [hgen] at hmem
    rcases seq_trace_mem _ _ hmem with hm | hm
    · exact deleteGoWork_no_init env cwd args hm
    · rcases seq_trace_mem _ _ hm with hm | hm
      · exact goWorkSum_no_init env _ cwd args hm
      · rcases seq_trace_mem _ _ hm with hm | hm
        · simp [workInitStage] at hm
        · rcases seq_trace_mem _ _ hm with hm | hm
          · exact vscode_no_init root env noCode _ cwd args hm
          · exact gitStage_no_init root env noGit _ cwd args hm
  · rw [hgen]
    apply seq_present _ _ false
    · rw [hdel]
    · apply seq_present _ _ false
      · rw [hsumst]
      · apply seq_present _ _ false
        · rw [hinit]
        · apply seq_present _ _ false
          · exact vscode_present root env noCode false
          · exact gitStage_present root env noGit false
  · rw [hgen]
    simp only [hdel, hsumst, hinit, WorkOut.seq]
    simp [vscodeStage, gitStage]

/-- Witness for C4 on a root with no go.mod anywhere. -/
theorem C4_empty_references_skip_witness :
    Eff.reportNoModules ∈ (generateWork "/ws" emptyTreeWorkEnv false false).trace ∧
    Eff.runGoWorkInit "/ws" ["work", "init"] ∉
      (generateWork "/ws" emptyTreeWorkEnv false false).trace ∧
    (generateWork "/ws" emptyTreeWorkEnv false false).goWorkPresent = false ∧
    (generateWork "/ws" emptyTreeWorkEnv true true).result = WorkResult.ok :=
  have h := C4_empty_references_skip "/ws" emptyTreeWorkEnv false false
    (by rfl) (by decide) (by decide)
  ⟨h.1, h.2.1 "/ws" ["work", "init"], h.2.2.1, h.2.2.2⟩

/-- C7: a failing stage ends the run at once (sequencing after a non-ok
result changes nothing), and no rollback happens: when VCS initialization
fails after the external build tool has successfully created the
descriptor, the run ends with the git-init error and the go.work file
still present, the successful init invocation in the trace. -/
theorem C7_no_rollback_after_vcs_init_failure (root : String) (env : WorkEnv)
    (folders : List String)
    (hdisc : discover env.tree = Except.ok folders) (hne : folders ≠ [])
    (h1 : env.goWorkExists = true → env.removeGoWorkOk = true)
    (h2 : env.goWorkSumExists = true → env.removeGoWorkSumOk = true)
    (hinit : env.goWorkInitOk = true)
    (hgit : env.gitInitOk = false) :
    (∀ (o : WorkOut) (k : Bool → WorkOut), o.result ≠ WorkResult.ok →
      WorkOut.seq o k = o) ∧
    (generateWork root env false true).result = WorkResult.gitInitError ∧
    (generateWork root env false true).goWorkPresent = true ∧
    Eff.runGoWorkInit root (["work", "init"] ++ folders) ∈
      (generateWork root env false true).trace := by
  have hstop : ∀ (o : WorkOut) (k : Bool → WorkOut), o.result ≠ WorkResult.ok →
      WorkOut.seq o k = o := by
    intro o k h
    rcases o with ⟨t, r, gw⟩
    cases r
    · exact absurd rfl h
    all_goals simp [WorkOut.seq]
  have hgen : generateWork root env false true =
      WorkOut.seq (deleteGoWorkStage env) (fun gw =>
        WorkOut.seq (goWorkSumStage env gw) fun gw2 =>
          WorkOut.seq (workInitStage root env folders gw2) fun gw3 =>
            WorkOut.seq (vscodeStage root env true gw3) fun gw4 =>
              gitStage root env false gw4) := by
    simp [generateWork, hdisc]
  have hdel : deleteGoWorkStage env =
      ⟨if env.goWorkExists then [Eff.removeGoWork] else [], .ok, false⟩ := by
    by_cases hx : env.goWorkExists
    · simp [deleteGoWorkStage, hx, h1 hx]
    · simp [deleteGoWorkStage, hx]
  have hsumst : ∀ gw, goWorkSumStage env gw =
      ⟨if env.goWorkSumExists then [Eff.removeGoWorkSum] else [], .ok, gw⟩ := by
    intro gw
    by_cases hx : env.goWorkSumExists
    · simp [goWorkSumStage, hx, h2 hx]
    · simp [goWorkSumStage, hx]
  have hinitst : ∀ gw, workInitStage root env folders gw =
      ⟨[Eff.runGoWorkInit root (["work", "init"] ++ folders)], .ok, true⟩ := by
    intro gw; simp [workInitStage, hne, hinit]
  have hvs : ∀ gw, vscodeStage root env true gw = ⟨[], .ok, gw⟩ := by
    intro gw; simp [vscodeStage]
  have hgitst : ∀ gw, gitStage root env false gw =
      ⟨[Eff.gitInit root], .gitInitError, gw⟩ := by
    intro gw; simp [gitStage, hgit]
  refine ⟨hstop, ?_, ?_, ?_⟩ <;>
    · rw [hgen]
      simp only [hdel, hsumst, hinitst, hvs, hgitst, WorkOut.seq]
      try simp

/-- Witness for C7: with git init failing after a successful descriptor
assembly, the descriptor remains. -/
theorem C7_no_rollback_after_vcs_init_failure_witness :
    WorkOut.seq ⟨[Eff.gitInit "/ws"], WorkResult.gitInitError, true⟩
        (fun _ => ⟨[], WorkResult.ok, true⟩) =
      ⟨[Eff.gitInit "/ws"], WorkResult.gitInitError, true⟩ ∧
    (generateWork "/ws" gitFailWorkEnv false true).result = WorkResult.gitInitError ∧
    (generateWork "/ws" gitFailWorkEnv false true).goWorkPresent = true ∧
    Eff.runGoWorkInit "/ws" (["work", "init"] ++ ["app1", "ext/lib1"]) ∈
      (generateWork "/ws" gitFailWorkEnv false true).trace :=
  have h := C7_no_rollback_after_vcs_init_failure "/ws" gitFailWorkEnv
    ["app1", "ext/lib1"] (by rfl) (by decide) (by decide) (by decide) (by decide)
    (by decide)
  ⟨h.1 _ _ (by decide), h.2.1, h.2.2.1, h.2.2.2⟩

/-- C8: the CLI exits with status 1 when no subcommand is given, when the
subcommand is unknown, and when the required name positional argument of
the app/lib command is missing (and then the module command performs no
effect); it exits with status 0 on the help and version subcommands. -/
theorem C8_exit_codes :
    mainDispatch [] = MainResult.exited 1 ∧
    (∀ cmd rest, cmd ∉ knownCommands → mainDispatch (cmd :: rest) = MainResult.exited 1) ∧
    (∀ rest, mainDispatch ("help" :: rest) = MainResult.exited 0) ∧
    (∀ rest, mainDispatch ("version" :: rest) = MainResult.exited 0) ∧
    (∀ args, mainDispatch ("app" :: args) = MainResult.ranModule false args) ∧
    (∀ args, mainDispatch ("lib" :: args) = MainResult.ranModule true args) ∧
    (∀ args p m, parseModFlags "" "none" args = some (p, m, []) →
      moduleCommandExit args = some 1 ∧
      ∀ (isLibrary : Bool) (cwd : String) (env : ModEnv),
        generateModule isLibrary args cwd env = ⟨[], ModResult.missingName⟩) := by
  refine ⟨rfl, ?_, ?_, ?_, ?_, ?_, ?_⟩
  · intro cmd rest h
    simp [knownCommands] at h
    obtain ⟨h1, h2, h3, h4, h5, h6, h7, h8, h9⟩ := h
    simp [mainDispatch, h1, h2, h3, h4, h5, h6, h7, h8, h9]
  · intro rest; rfl
  · intro rest; rfl
  · intro args; rfl
  · intro args; rfl
  · intro args p m hparse
    exact ⟨by simp [moduleCommandExit, hparse],
      fun isLibrary cwd env => by simp [generateModule, hparse]⟩

/-- Witness for C8: an unknown subcommand exits 1; app with only a --path
flag and no name exits 1 with no effect attempted. -/
theorem C8_exit_codes_witness :
    mainDispatch ["frobnicate"] = MainResult.exited 1 ∧
    moduleCommandExit ["--path", "/tmp/x"] = some 1 ∧
    generateModule false ["--path", "/tmp/x"] "/work" allOkModEnv =
      ⟨[], ModResult.missingName⟩ :=
  have h := C8_exit_codes
  have h7 := h.2.2.2.2.2.2 ["--path", "/tmp/x"] "/tmp/x" "none" (by rfl)
  ⟨h.2.1 "frobnicate" [] (by decide), h7.1, h7.2 false "/work" allOkModEnv⟩

/-- C9: the usage text of the program (src/main.go lines 139 and 156, and
README.md) documents a "nomain" switch that skips the generation of
main.go for the app command, but `parseOptionalFlags` recognizes only
"nogit" and "nocode" and `noMain` is set from `isLibrary` alone: an app
run with "nomain" passed still writes main.go, and its effect trace is
identical to the run without "nomain". -/
theorem C9_nomain_ignored :
    parseOptionalFlags ["nomain"] = (false, false) ∧
    MEff.writeMainGo "/work/myapp" ∈
      (generateModule false ["myapp", "nomain"] "/work" allOkModEnv).trace ∧
    (generateModule false ["myapp", "nomain"] "/work" allOkModEnv).trace =
      (generateModule false ["myapp"] "/work" allOkModEnv).trace := by
  refine ⟨rfl, by decide, rfl⟩

/-- C10: for every app/lib invocation whose flag set parses and provides a
name, once the module folder is created the module name passed to
`go mod init` is exactly the qualifier of the module-prefix flag value
followed by the name — where the qualifier is the muellerbbm-vas constant
for "vas", the mbbm-slb constant for "slb", empty for "none" (the default of the flag, hence also when omitted), and the flag value itself verbatim
otherwise. -/
theorem C10_module_name_from_qualifier :
    (∀ (isLibrary : Bool) (args : List String) (cwd : String) (env : ModEnv)
        (p m name : String) (others : List String),
      parseModFlags "" "none" args = some (p, m, name :: others) →
      env.mkdirOk = true →
      MEff.goModInit (joinPath (if p = "" then cwd else p) [name]) (modulePfxOf m ++ name)
        ∈ (generateModule isLibrary args cwd env).trace) ∧
    modulePfxOf "vas" = "github.com/muellerbbm-vas/" ∧
    modulePfxOf "slb" = "github.com/mbbm-slb/" ∧
    modulePfxOf "none" = "" ∧
    (∀ s, s ≠ "vas" → s ≠ "slb" → s ≠ "none" → modulePfxOf s = s) := by
  refine ⟨?_, rfl, rfl, rfl, ?_⟩
  · intro isLibrary args cwd env p m name others hparse hmk
    simp only [generateModule, hparse, step, hmk, if_true]
    by_cases hg : env.goModInitOk <;> simp [hg]
  · intro s h1 h2 h3
    simp [modulePfxOf, h1, h2, h3]

/-- Witness for C10: app with --module-prefix vas and name myapp passes
github.com/muellerbbm-vas/myapp to go mod init, inside /work/myapp. -/
theorem C10_module_name_from_qualifier_witness :
    MEff.goModInit "/work/myapp" "github.com/muellerbbm-vas/myapp" ∈
      (generateModule false ["--module-prefix", "vas", "myapp"] "/work" allOkModEnv).trace :=
  C10_module_name_from_qualifier.1 false ["--module-prefix", "vas", "myapp"] "/work"
    allOkModEnv "" "vas" "myapp" [] (by rfl) (by rfl)

end VasGoTools
